import Mathlib

/-!
A shallow embedding of the constraint-based narrative consistency checker
(`KDSH_Submission/code/main.py`).  Python floats are modelled as exact
rationals (`ℚ`), Python ints as `ℤ`/`ℕ`, strings as `String` with
case-insensitive substring tests carried out on `List Char`, and Python
dicts (insertion ordered, key-overwriting) as association lists.
-/

/-- `Constraint` dataclass: a behavioral rule derived from the backstory. -/
structure Constraint where
  id : String
  category : String
  description : String
  base_weight : ℚ
  precedence : ℤ
  stateful : Bool
deriving DecidableEq, Repr

/-- `EvidenceResult` dataclass: one passage-level observation. -/
structure EvidenceResult where
  passage_id : ℕ
  score : ℤ
  reason : String
  voluntary : Bool
  justified : Bool
deriving DecidableEq, Repr

/-- `ConstraintTrace` dataclass: per-constraint aggregation result. -/
structure ConstraintTrace where
  constraint : Constraint
  evidences : List EvidenceResult
  final_score : ℚ
  causal_valid : Bool
deriving DecidableEq, Repr

/-- `DecisionReport` dataclass: the final output.  The Python dict
`per_constraint_scores` is modelled as an insertion-ordered association
list. -/
structure DecisionReport where
  decision : ℕ
  per_constraint_scores : List (String × ℚ)
  violated_constraints : List String
deriving DecidableEq, Repr

/-- Python's `str.lower()` on the underlying character list. -/
def lowerData (s : String) : List Char :=
  s.data.map Char.toLower

/-- Python's substring test `needle in text` (on an already-lowercased
character list). -/
def containsSub (text : List Char) (needle : String) : Bool :=
  decide (needle.data <:+: text)

/-- `ConstraintExtractor.extract`: backstory keywords to constraints.
Each `if` of the Python method appends (at most) one constraint to `out`. -/
def ConstraintExtractor.extract (backstory : String) : List Constraint :=
  (if containsSub (lowerData backstory) "authority" then
    [⟨"C1", "BELIEF", "Distrusts authority", 1, 2, true⟩] else []) ++
  (if containsSub (lowerData backstory) "betray" || containsSub (lowerData backstory) "loyal" then
    [⟨"C2", "COMMITMENT", "Never betrays close allies", 2, 5, true⟩] else []) ++
  (if containsSub (lowerData backstory) "fear" || containsSub (lowerData backstory) "avoid" then
    [⟨"C3", "FEAR", "Avoids positions of power", 4/5, 1, false⟩] else []) ++
  (if containsSub (lowerData backstory) "cannot" || containsSub (lowerData backstory) "never learned" then
    [⟨"C4", "CAPABILITY", "Lacks key capability", 3/2, 3, true⟩] else []) ++
  (if containsSub (lowerData backstory) "identity" || containsSub (lowerData backstory) "i am" then
    [⟨"C5", "IDENTITY", "Core self-concept constraint", 6/5, 4, true⟩] else [])

/-- `voluntary = not any(w in text for w in ("forced", "coerced", "had to"))`. -/
def voluntaryOf (text : List Char) : Bool :=
  !(containsSub text "forced" || containsSub text "coerced" || containsSub text "had to")

/-- `justified = any(w in text for w in ("regret", "apolog", "no choice"))`. -/
def justifiedOf (text : List Char) : Bool :=
  containsSub text "regret" || containsSub text "apolog" || containsSub text "no choice"

/-- The tuple `negations` of explicit non-betrayal phrases, tested with
`any(n in text for n in negations)`. -/
def hasNegation (text : List Char) : Bool :=
  containsSub text "never betray" || containsSub text "never betrayed" ||
  containsSub text "did not betray" || containsSub text "didn't betray"

/-- The padded betrayal test `" betrayed " in f" {text} "`. -/
def hasPaddedBetrayal (text : List Char) : Bool :=
  containsSub ((' ' :: text) ++ [' ']) " betrayed "

/-- `ConstraintChecker.check`: the category rule ladder.  The Python method
returns at the first matching branch; the flattened `if`-chain below has the
same control flow (within COMMITMENT the negation test precedes the padded
betrayal test, and the remaining categories are mutually exclusive). -/
def ConstraintChecker.check (constraint : Constraint) (passage : String) (passage_id : ℕ) :
    EvidenceResult :=
  if constraint.category = "COMMITMENT" ∧ hasNegation (lowerData passage) = true then
    ⟨passage_id, 0, "explicit non-betrayal", voluntaryOf (lowerData passage), false⟩
  else if constraint.category = "COMMITMENT" ∧ hasPaddedBetrayal (lowerData passage) = true then
    ⟨passage_id, -10, "betrayal", voluntaryOf (lowerData passage), justifiedOf (lowerData passage)⟩
  else if constraint.category = "CAPABILITY" ∧ containsSub (lowerData passage) "suddenly mastered" = true then
    ⟨passage_id, -9, "capability jump", voluntaryOf (lowerData passage), false⟩
  else if constraint.category = "IDENTITY" ∧ containsSub (lowerData passage) "no longer who i was" = true then
    ⟨passage_id, -4, "identity shift", voluntaryOf (lowerData passage), justifiedOf (lowerData passage)⟩
  else if constraint.category = "BELIEF" ∧ containsSub (lowerData passage) "became the leader" = true then
    ⟨passage_id, -3, "belief vs action", voluntaryOf (lowerData passage), justifiedOf (lowerData passage)⟩
  else if constraint.category = "FEAR" ∧ containsSub (lowerData passage) "command" = true then
    ⟨passage_id, -1, "fear tension", voluntaryOf (lowerData passage), false⟩
  else
    ⟨passage_id, 0, "", voluntaryOf (lowerData passage), false⟩

/-- One evidence's contribution inside `TemporalAggregator.aggregate`:
`ev.score * time_w * vol_w * just_w` with
`time_w = 1 - passage_id / max(total_passages, 1)`,
`vol_w = 1 if voluntary else 0.4`, `just_w = 0.6 if justified else 1`. -/
def contrib (ev : EvidenceResult) (total_passages : ℕ) : ℚ :=
  ((ev.score : ℚ) * (1 - (ev.passage_id : ℚ) / ((max total_passages 1 : ℕ) : ℚ))) *
    (if ev.voluntary then 1 else 2/5) * (if ev.justified then 3/5 else 1)

/-- The accumulated `score` of the evidence loop in `aggregate`. -/
def accumScore (evidences : List EvidenceResult) (total_passages : ℕ) : ℚ :=
  (evidences.map (fun ev => contrib ev total_passages)).sum

/-- The `causal_valid` flag of the evidence loop in `aggregate`:
set when any evidence satisfies `ev.passage_id > total_passages * 0.1`. -/
def causalValid (evidences : List EvidenceResult) (total_passages : ℕ) : Bool :=
  evidences.any (fun ev => decide ((total_passages : ℚ) * (1/10) < (ev.passage_id : ℚ)))

/-- `TemporalAggregator.aggregate`: empty evidence defaults to `(0.0, True)`;
a single evidence whose accumulated score has absolute value `< 2` is
suppressed to `(0.0, True)`; otherwise the score is scaled by
`constraint.base_weight`. -/
def TemporalAggregator.aggregate (evidences : List EvidenceResult) (total_passages : ℕ)
    (constraint : Constraint) : ℚ × Bool :=
  if evidences = [] then (0, true)
  else if evidences.length = 1 ∧ |accumScore evidences total_passages| < 2 then (0, true)
  else (accumScore evidences total_passages * constraint.base_weight,
        causalValid evidences total_passages)

/-- The veto test of `ConsistencyJudge.decide`: `ev.score <= -9 and ev.voluntary`. -/
def vetoHit (ev : EvidenceResult) : Bool :=
  decide (ev.score ≤ -9) && ev.voluntary

/-- The `violated` list built by the nested veto loop of
`ConsistencyJudge.decide`: one copy of `t.constraint.id` appended per
qualifying evidence, in loop order. -/
def violatedList (traces : List ConstraintTrace) : List String :=
  traces.flatMap (fun t => (t.evidences.filter vetoHit).map (fun _ => t.constraint.id))

/-- Python dict assignment `m[k] = v`: overwrite in place if the key is
present, else append. -/
def insertAssoc (m : List (String × ℚ)) (k : String) (v : ℚ) : List (String × ℚ) :=
  if m.any (fun p => p.1 == k) then m.map (fun p => if p.1 == k then (k, v) else p)
  else m ++ [(k, v)]

/-- One iteration of the `weighted` loop in `ConsistencyJudge.decide`: the
trace is skipped unless `causal_valid` holds and `abs(final_score) >= 1e-6`;
otherwise `weighted[id] = final_score * precedence`. -/
def weightedStep (m : List (String × ℚ)) (t : ConstraintTrace) : List (String × ℚ) :=
  if t.causal_valid = true ∧ ¬ |t.final_score| < 1/1000000 then
    insertAssoc m t.constraint.id (t.final_score * (t.constraint.precedence : ℚ))
  else m

/-- The `weighted` dict of `ConsistencyJudge.decide`. -/
def weightedFor (traces : List ConstraintTrace) : List (String × ℚ) :=
  traces.foldl weightedStep []

/-- `sum(weighted.values())`. -/
def sumValues (m : List (String × ℚ)) : ℚ :=
  (m.map Prod.snd).sum

/-- `ConsistencyJudge.decide`: veto scan first; else the weighted decision
with the empty-dict default and the `>= -2` threshold. -/
def ConsistencyJudge.decide (traces : List ConstraintTrace) : DecisionReport :=
  if violatedList traces ≠ [] then ⟨0, [], violatedList traces⟩
  else if weightedFor traces = [] then ⟨1, [], []⟩
  else ⟨if -2 ≤ sumValues (weightedFor traces) then 1 else 0, weightedFor traces, []⟩

/-- `NarrativeStore.get_passages` chunking
`[text[i:i+chunk_size] for i in range(0, len(text), chunk_size)]`. -/
def chunkList (cs : List Char) (k : ℕ) : List (List Char) :=
  if h : cs = [] ∨ k = 0 then []
  else cs.take k :: chunkList (cs.drop k) k
termination_by cs.length
decreasing_by
  simp only [not_or] at h
  simp only [List.length_drop]
  exact Nat.sub_lt (List.length_pos.mpr h.1) (Nat.pos_of_ne_zero h.2)

/-- Passages of the novel text, as strings. -/
def get_passages (novel : String) (chunk_size : ℕ) : List String :=
  (chunkList novel.data chunk_size).map fun cs => ⟨cs⟩

/-- The evidence-collection loop of `run_pipeline` for one constraint:
`for i, p in enumerate(passages): ev = checker.check(c, p, i); if ev.score:
evidences.append(ev)`, started at index `i`. -/
def scanFrom (c : Constraint) : ℕ → List String → List EvidenceResult
  | _, [] => []
  | i, p :: ps =>
    if (ConstraintChecker.check c p i).score ≠ 0 then
      ConstraintChecker.check c p i :: scanFrom c (i + 1) ps
    else scanFrom c (i + 1) ps

/-- The traces built by `run_pipeline` before judging. -/
def tracesOf (novel backstory : String) : List ConstraintTrace :=
  (ConstraintExtractor.extract backstory).map fun c =>
    ⟨c, scanFrom c 0 (get_passages novel 700),
      (TemporalAggregator.aggregate (scanFrom c 0 (get_passages novel 700))
        (get_passages novel 700).length c).1,
      (TemporalAggregator.aggregate (scanFrom c 0 (get_passages novel 700))
        (get_passages novel 700).length c).2⟩

/-- `run_pipeline`, taking the novel's text content in place of its path. -/
def run_pipeline (novel backstory : String) : DecisionReport :=
  ConsistencyJudge.decide (tracesOf novel backstory)

/-! ## Helper lemmas -/

/-- Every branch of `check` reports the passage index it was given. -/
lemma check_passage_id (c : Constraint) (p : String) (i : ℕ) :
    (ConstraintChecker.check c p i).passage_id = i := by
  unfold ConstraintChecker.check
  split_ifs <;> rfl

/-- The rule ladder only ever returns scores from {0, -10, -9, -4, -3, -1}. -/
lemma check_score_nonpos (c : Constraint) (p : String) (i : ℕ) :
    (ConstraintChecker.check c p i).score ≤ 0 := by
  unfold ConstraintChecker.check
  split_ifs <;> norm_num

/-- Sums of nonpositive rationals are nonpositive. -/
lemma list_sum_nonpos {l : List ℚ} (h : ∀ x ∈ l, x ≤ 0) : l.sum ≤ 0 := by
  induction l with
  | nil => simp
  | cons a t ih =>
    have ha := h a (List.mem_cons_self a t)
    have ht := ih fun x hx => h x (List.mem_cons_of_mem a hx)
    simp only [List.sum_cons]
    linarith

/-- A nonpositive-score evidence whose index does not exceed the floored
passage count contributes nonpositively. -/
lemma contrib_nonpos {ev : EvidenceResult} {tp : ℕ} (hs : ev.score ≤ 0)
    (hp : ev.passage_id ≤ max tp 1) : contrib ev tp ≤ 0 := by
  unfold contrib
  have hden : (0 : ℚ) < ((max tp 1 : ℕ) : ℚ) := by
    exact_mod_cast Nat.lt_of_lt_of_le Nat.zero_lt_one (le_max_right tp 1)
  have htw : (0 : ℚ) ≤ 1 - (ev.passage_id : ℚ) / ((max tp 1 : ℕ) : ℚ) := by
    have h1 : (ev.passage_id : ℚ) / ((max tp 1 : ℕ) : ℚ) ≤ 1 := by
      rw [div_le_one hden]
      exact_mod_cast hp
    linarith
  have hsq : ((ev.score : ℤ) : ℚ) ≤ 0 := by exact_mod_cast hs
  have hv : (0 : ℚ) ≤ (if ev.voluntary then 1 else 2/5) := by split <;> norm_num
  have hj : (0 : ℚ) ≤ (if ev.justified then 3/5 else 1) := by split <;> norm_num
  exact mul_nonpos_of_nonpos_of_nonneg
    (mul_nonpos_of_nonpos_of_nonneg (mul_nonpos_of_nonpos_of_nonneg hsq htw) hv) hj

/-- The aggregated score is nonpositive whenever all evidence scores are
nonpositive and the base weight is nonnegative. -/
lemma aggregate_fst_nonpos {l : List EvidenceResult} {tp : ℕ} {c : Constraint}
    (hbw : 0 ≤ c.base_weight)
    (h : ∀ ev ∈ l, ev.score ≤ 0 ∧ ev.passage_id ≤ max tp 1) :
    (TemporalAggregator.aggregate l tp c).1 ≤ 0 := by
  unfold TemporalAggregator.aggregate
  split
  · norm_num
  · split
    · norm_num
    · show accumScore l tp * c.base_weight ≤ 0
      have hacc : accumScore l tp ≤ 0 := by
        unfold accumScore
        apply list_sum_nonpos
        intro x hx
        simp only [List.mem_map] at hx
        obtain ⟨ev, hev, rfl⟩ := hx
        exact contrib_nonpos (h ev hev).1 (h ev hev).2
      exact mul_nonpos_of_nonpos_of_nonneg hacc hbw

/-- Evidence retained by the scanning loop has non-zero (hence negative)
score and an index below the end of the scanned range. -/
lemma mem_scanFrom {c : Constraint} {ev : EvidenceResult} :
    ∀ {i : ℕ} {ps : List String}, ev ∈ scanFrom c i ps →
      ev.score ≤ 0 ∧ ev.score ≠ 0 ∧ ev.passage_id < i + ps.length := by
  intro i ps
  induction ps generalizing i with
  | nil => intro h; simp [scanFrom] at h
  | cons p t ih =>
    intro h
    simp only [scanFrom] at h
    split at h
    · rcases List.mem_cons.mp h with rfl | h
      · refine ⟨check_score_nonpos c p i, by assumption, ?_⟩
        rw [check_passage_id]
        simp
      · obtain ⟨h1, h2, h3⟩ := ih h
        exact ⟨h1, h2, by simpa [Nat.add_comm, Nat.add_left_comm] using h3⟩
    · obtain ⟨h1, h2, h3⟩ := ih h
      exact ⟨h1, h2, by simpa [Nat.add_comm, Nat.add_left_comm] using h3⟩

/-- Every constraint the extractor can emit has nonnegative base weight and
precedence. -/
lemma extract_bounds {b : String} {c : Constraint}
    (hc : c ∈ ConstraintExtractor.extract b) :
    0 ≤ c.base_weight ∧ 0 ≤ c.precedence := by
  unfold ConstraintExtractor.extract at hc
  simp only [List.mem_append] at hc
  rcases hc with ((((h | h) | h) | h) | h) <;>
    [skip; skip; skip; skip; skip] <;>
    · split at h
      · rw [List.mem_singleton] at h
        subst h
        constructor <;> norm_num
      · simp at h

/-- `vetoHit` unfolded to its defining proposition. -/
lemma vetoHit_iff {ev : EvidenceResult} :
    vetoHit ev = true ↔ ev.score ≤ -9 ∧ ev.voluntary = true := by
  simp [vetoHit]

/-- Membership in the veto loop's `violated` list. -/
lemma mem_violatedList {traces : List ConstraintTrace} {x : String} :
    x ∈ violatedList traces ↔
      ∃ t ∈ traces, x = t.constraint.id ∧ ∃ ev ∈ t.evidences, vetoHit ev = true := by
  unfold violatedList
  simp only [List.mem_flatMap, List.mem_map, List.mem_filter]
  constructor
  · rintro ⟨t, ht, ev, ⟨hev, hv⟩, rfl⟩
    exact ⟨t, ht, rfl, ev, hev, hv⟩
  · rintro ⟨t, ht, rfl, ev, hev, hv⟩
    exact ⟨t, ht, ev, ⟨hev, hv⟩, rfl⟩

/-- If no retained evidence qualifies for a veto, the `violated` list stays
empty. -/
lemma violatedList_eq_nil {traces : List ConstraintTrace}
    (hv : ∀ t ∈ traces, ∀ ev ∈ t.evidences, ¬(ev.score ≤ -9 ∧ ev.voluntary = true)) :
    violatedList traces = [] := by
  by_contra h
  obtain ⟨x, hx⟩ := List.exists_mem_of_ne_nil _ h
  rw [mem_violatedList] at hx
  obtain ⟨t, ht, _, ev, hev, hveto⟩ := hx
  exact hv t ht ev hev (vetoHit_iff.mp hveto)

/-- The judge always returns exactly the veto loop's list (which is empty on
the weighted path). -/
lemma decide_violated_eq (traces : List ConstraintTrace) :
    (ConsistencyJudge.decide traces).violated_constraints = violatedList traces := by
  unfold ConsistencyJudge.decide
  split
  · rfl
  · next hne =>
    rw [not_ne_iff] at hne
    rw [hne]
    split <;> rfl

/-- Anything in the report's score mapping came from the `weighted` dict. -/
lemma decide_scores_sub {traces : List ConstraintTrace} {p : String × ℚ}
    (hp : p ∈ (ConsistencyJudge.decide traces).per_constraint_scores) :
    p ∈ weightedFor traces := by
  unfold ConsistencyJudge.decide at hp
  split at hp
  · simp at hp
  · split at hp
    · simp at hp
    · exact hp

/-- Dict assignment only rewrites one binding or appends one binding. -/
lemma insertAssoc_mem {m : List (String × ℚ)} {k : String} {v : ℚ} {p : String × ℚ}
    (hp : p ∈ insertAssoc m k v) : p ∈ m ∨ p = (k, v) := by
  unfold insertAssoc at hp
  split at hp
  · simp only [List.mem_map] at hp
    obtain ⟨q, hq, hpe⟩ := hp
    split at hpe
    · right; exact hpe.symm
    · left; rw [← hpe]; exact hq
  · rcases List.mem_append.mp hp with h | h
    · left; exact h
    · right; simpa using h

/-- Every binding produced by the `weighted` loop comes from a contributing
trace with the recorded value `final_score * precedence`. -/
lemma weightedFor_fold_mem :
    ∀ (l : List ConstraintTrace) (acc : List (String × ℚ)) (p : String × ℚ),
      p ∈ l.foldl weightedStep acc →
      p ∈ acc ∨ ∃ t ∈ l, (t.causal_valid = true ∧ ¬ |t.final_score| < 1/1000000) ∧
        p = (t.constraint.id, t.final_score * (t.constraint.precedence : ℚ)) := by
  intro l
  induction l with
  | nil => intro acc p hp; left; exact hp
  | cons t ts ih =>
    intro acc p hp
    simp only [List.foldl_cons] at hp
    rcases ih (weightedStep acc t) p hp with h | ⟨u, hu, hc, hpe⟩
    · unfold weightedStep at h
      split at h
      · rcases insertAssoc_mem h with h' | h'
        · left; exact h'
        · right
          refine ⟨t, List.mem_cons_self t ts, ?_, h'⟩
          assumption
      · left; exact h
    · right
      exact ⟨u, List.mem_cons_of_mem t hu, hc, hpe⟩

/-- Specialization of `weightedFor_fold_mem` to the empty accumulator. -/
lemma weightedFor_mem {traces : List ConstraintTrace} {p : String × ℚ}
    (hp : p ∈ weightedFor traces) :
    ∃ t ∈ traces, (t.causal_valid = true ∧ ¬ |t.final_score| < 1/1000000) ∧
      p = (t.constraint.id, t.final_score * (t.constraint.precedence : ℚ)) := by
  rcases weightedFor_fold_mem traces [] p hp with h | h
  · simp at h
  · exact h

/-- Skipped traces leave the dict untouched: with no contributing trace the
`weighted` dict stays as it started. -/
lemma weightedFor_fold_nil :
    ∀ (l : List ConstraintTrace) (acc : List (String × ℚ)),
      (∀ t ∈ l, ¬(t.causal_valid = true ∧ ¬ |t.final_score| < 1/1000000)) →
      l.foldl weightedStep acc = acc := by
  intro l
  induction l with
  | nil => intro acc _; rfl
  | cons t ts ih =>
    intro acc h
    simp only [List.foldl_cons]
    have hstep : weightedStep acc t = acc := by
      unfold weightedStep
      rw [if_neg (h t (List.mem_cons_self t ts))]
    rw [hstep]
    exact ih acc fun u hu => h u (List.mem_cons_of_mem t hu)

/-- Dict assignment preserves existing keys. -/
lemma insertAssoc_keys_mono {m : List (String × ℚ)} {k k' : String} {v : ℚ}
    (h : k' ∈ m.map Prod.fst) : k' ∈ (insertAssoc m k v).map Prod.fst := by
  unfold insertAssoc
  split
  · simp only [List.mem_map] at h ⊢
    obtain ⟨q, hq, rfl⟩ := h
    by_cases hk : (q.1 == k) = true
    · refine ⟨(k, v), ⟨q, hq, by rw [if_pos hk]⟩, ?_⟩
      exact (eq_of_beq hk).symm
    · exact ⟨q, ⟨q, hq, by rw [if_neg hk]⟩, rfl⟩
  · simp only [List.map_append, List.mem_append]
    left; exact h

/-- Dict assignment makes its key present. -/
lemma insertAssoc_keys_self (m : List (String × ℚ)) (k : String) (v : ℚ) :
    k ∈ (insertAssoc m k v).map Prod.fst := by
  unfold insertAssoc
  split
  · next hany =>
    rw [List.any_eq_true] at hany
    obtain ⟨q, hq, hqk⟩ := hany
    simp only [List.mem_map]
    exact ⟨(k, v), ⟨q, hq, by rw [if_pos hqk]⟩, rfl⟩
  · simp

/-- Every contributing trace leaves its constraint id among the keys of the
`weighted` dict. -/
lemma weightedFor_fold_keys :
    ∀ (l : List ConstraintTrace) (acc : List (String × ℚ)) (k : String),
      (k ∈ acc.map Prod.fst ∨
        ∃ t ∈ l, (t.causal_valid = true ∧ ¬ |t.final_score| < 1/1000000) ∧
          k = t.constraint.id) →
      k ∈ (l.foldl weightedStep acc).map Prod.fst := by
  intro l
  induction l with
  | nil =>
    intro acc k h
    rcases h with h | ⟨t, ht, _, _⟩
    · exact h
    · simp at ht
  | cons t ts ih =>
    intro acc k h
    simp only [List.foldl_cons]
    apply ih
    rcases h with h | ⟨u, hu, hcond, rfl⟩
    · left
      unfold weightedStep
      split
      · exact insertAssoc_keys_mono h
      · exact h
    · rcases List.mem_cons.mp hu with rfl | hu'
      · left
        unfold weightedStep
        rw [if_pos hcond]
        exact insertAssoc_keys_self ..
      · right; exact ⟨u, hu', hcond, rfl⟩

/-- Specialization of `weightedFor_fold_keys` to the judge's dict. -/
lemma weightedFor_keys {traces : List ConstraintTrace} {t : ConstraintTrace}
    (ht : t ∈ traces) (hc : t.causal_valid = true ∧ ¬ |t.final_score| < 1/1000000) :
    t.constraint.id ∈ (weightedFor traces).map Prod.fst :=
  weightedFor_fold_keys traces [] t.constraint.id (Or.inr ⟨t, ht, hc, rfl⟩)

/-! ## Claim theorems -/

/-- C1: if any retained evidence in any trace has score at most -9 and is
voluntary, `decide` returns decision 0 with an empty score mapping and a
non-empty violated-constraints list, regardless of the traces' aggregated
final scores. -/
theorem veto_precedence_over_scoring (traces : List ConstraintTrace)
    (h : ∃ t ∈ traces, ∃ ev ∈ t.evidences, ev.score ≤ -9 ∧ ev.voluntary = true) :
    (ConsistencyJudge.decide traces).decision = 0 ∧
    (ConsistencyJudge.decide traces).per_constraint_scores = [] ∧
    (ConsistencyJudge.decide traces).violated_constraints ≠ [] := by
  obtain ⟨t, ht, ev, hev, hs, hv⟩ := h
  have hmem : t.constraint.id ∈ violatedList traces :=
    mem_violatedList.mpr ⟨t, ht, rfl, ev, hev, vetoHit_iff.mpr ⟨hs, hv⟩⟩
  have hne : violatedList traces ≠ [] := List.ne_nil_of_mem hmem
  unfold ConsistencyJudge.decide
  rw [if_pos hne]
  exact ⟨rfl, rfl, hne⟩

/-- Concrete instance of the veto precedence claim: one commitment trace with
a voluntary betrayal at score -10 and a positive final score. -/
theorem veto_precedence_over_scoring_witness :
    (ConsistencyJudge.decide
      [⟨⟨"C2", "COMMITMENT", "Never betrays close allies", 2, 5, true⟩,
        [⟨3, -10, "betrayal", true, false⟩], 7, true⟩]).decision = 0 ∧
    (ConsistencyJudge.decide
      [⟨⟨"C2", "COMMITMENT", "Never betrays close allies", 2, 5, true⟩,
        [⟨3, -10, "betrayal", true, false⟩], 7, true⟩]).per_constraint_scores = [] ∧
    (ConsistencyJudge.decide
      [⟨⟨"C2", "COMMITMENT", "Never betrays close allies", 2, 5, true⟩,
        [⟨3, -10, "betrayal", true, false⟩], 7, true⟩]).violated_constraints ≠ [] :=
  veto_precedence_over_scoring _
    ⟨_, List.mem_singleton.mpr rfl, ⟨3, -10, "betrayal", true, false⟩,
      List.mem_singleton.mpr rfl, by decide, rfl⟩

/-- C2: the report never carries both a non-empty score mapping and a
non-empty violation list: one of the two collections is always empty (a veto
suppresses the weighted breakdown, the weighted path reports no
violations). -/
theorem report_never_both_nonempty (traces : List ConstraintTrace) :
    (ConsistencyJudge.decide traces).per_constraint_scores = [] ∨
    (ConsistencyJudge.decide traces).violated_constraints = [] := by
  unfold ConsistencyJudge.decide
  split_ifs <;> simp

/-- C3: for a COMMITMENT constraint, a passage matching an explicit
non-betrayal phrase always scores 0 with reason "explicit non-betrayal" and
justified forced to false, so it never yields negative-score evidence even
when the passage also contains the padded substring " betrayed ". -/
theorem commitment_negation_immunity (c : Constraint) (p : String) (i : ℕ)
    (hcat : c.category = "COMMITMENT") (hneg : hasNegation (lowerData p) = true) :
    (ConstraintChecker.check c p i).score = 0 ∧
    (ConstraintChecker.check c p i).reason = "explicit non-betrayal" ∧
    (ConstraintChecker.check c p i).justified = false := by
  unfold ConstraintChecker.check
  rw [if_pos ⟨hcat, hneg⟩]
  exact ⟨rfl, rfl, rfl⟩

/-- Concrete instance of the negation immunity claim, on a passage that also
contains the padded betrayal substring. -/
theorem commitment_negation_immunity_witness :
    hasNegation (lowerData "He never betrayed his friends, though he betrayed strangers.") = true ∧
    hasPaddedBetrayal (lowerData "He never betrayed his friends, though he betrayed strangers.") = true ∧
    ((ConstraintChecker.check ⟨"C2", "COMMITMENT", "Never betrays close allies", 2, 5, true⟩
        "He never betrayed his friends, though he betrayed strangers." 0).score = 0 ∧
      (ConstraintChecker.check ⟨"C2", "COMMITMENT", "Never betrays close allies", 2, 5, true⟩
        "He never betrayed his friends, though he betrayed strangers." 0).reason =
          "explicit non-betrayal" ∧
      (ConstraintChecker.check ⟨"C2", "COMMITMENT", "Never betrays close allies", 2, 5, true⟩
        "He never betrayed his friends, though he betrayed strangers." 0).justified = false) :=
  ⟨by decide, by decide, commitment_negation_immunity _ _ 0 rfl (by decide)⟩

/-- C5: a single evidence whose weighted contribution (before the base-weight
scaling) has absolute value below 2 is discarded: `aggregate` returns
`(0.0, True)` for any constraint and passage count. -/
theorem single_weak_evidence_suppressed (c : Constraint) (tp : ℕ) (ev : EvidenceResult)
    (h : |contrib ev tp| < 2) :
    TemporalAggregator.aggregate [ev] tp c = (0, true) := by
  unfold TemporalAggregator.aggregate
  rw [if_neg (by simp : ¬([ev] : List EvidenceResult) = [])]
  rw [if_pos ⟨rfl, by simpa [accumScore] using h⟩]

/-- Concrete instance of the single-weak-evidence suppression claim:
one involuntary fear-tension evidence in a ten-passage narrative. -/
theorem single_weak_evidence_suppressed_witness :
    |contrib ⟨1, -1, "fear tension", true, false⟩ 10| < 2 ∧
    TemporalAggregator.aggregate [⟨1, -1, "fear tension", true, false⟩] 10
      ⟨"C3", "FEAR", "Avoids positions of power", 4/5, 1, false⟩ = (0, true) := by
  have h : |contrib ⟨1, -1, "fear tension", true, false⟩ 10| < 2 := by
    norm_num [contrib, abs_lt]
  exact ⟨h, single_weak_evidence_suppressed _ 10 _ h⟩

/-- C6: an empty evidence list aggregates to `(0.0, True)`, and a trace list
whose traces all have final score 0 and causal validity (with no
veto-qualifying evidence) decides to 1 with both output collections empty. -/
theorem no_signal_defaults_consistent :
    (∀ (tp : ℕ) (c : Constraint), TemporalAggregator.aggregate [] tp c = (0, true)) ∧
    (∀ traces : List ConstraintTrace,
      (∀ t ∈ traces, t.final_score = 0 ∧ t.causal_valid = true ∧
        ∀ ev ∈ t.evidences, ¬(ev.score ≤ -9 ∧ ev.voluntary = true)) →
      ConsistencyJudge.decide traces = ⟨1, [], []⟩) := by
  constructor
  · intro tp c
    rfl
  · intro traces h
    have hnil : violatedList traces = [] :=
      violatedList_eq_nil fun t ht => (h t ht).2.2
    have hw : weightedFor traces = [] := by
      unfold weightedFor
      apply weightedFor_fold_nil
      intro t ht hc
      exact hc.2 (by rw [(h t ht).1]; norm_num)
    unfold ConsistencyJudge.decide
    rw [if_neg (not_ne_iff.mpr hnil), if_pos hw]

/-- Concrete instance of the no-signal default claim: an empty evidence list
and a single zero-score causally valid trace. -/
theorem no_signal_defaults_consistent_witness :
    TemporalAggregator.aggregate [] 5
      ⟨"C3", "FEAR", "Avoids positions of power", 4/5, 1, false⟩ = (0, true) ∧
    ConsistencyJudge.decide
      [⟨⟨"C3", "FEAR", "Avoids positions of power", 4/5, 1, false⟩, [], 0, true⟩] =
        ⟨1, [], []⟩ :=
  ⟨no_signal_defaults_consistent.1 5 _,
    no_signal_defaults_consistent.2 _ (by
      intro t ht
      rw [List.mem_singleton] at ht
      subst ht
      refine ⟨rfl, rfl, ?_⟩
      intro ev hev
      simp at hev)⟩

/-- C7: for more than one passage, two evidences identical except for their
passage index (non-zero score, indices within range) contribute strictly
decreasing magnitude as the index grows, because the time weight shrinks. -/
theorem time_decay_strict_monotone (tp p1 p2 : ℕ) (s : ℤ) (r : String) (v j : Bool)
    (htp : 1 < tp) (hs : s ≠ 0) (h12 : p1 < p2) (h2 : p2 < tp) :
    |contrib ⟨p2, s, r, v, j⟩ tp| < |contrib ⟨p1, s, r, v, j⟩ tp| := by
  have hmax : max tp 1 = tp := Nat.max_eq_left (le_of_lt htp)
  have hT0 : (0 : ℚ) < (tp : ℚ) := by
    exact_mod_cast Nat.lt_trans Nat.zero_lt_one htp
  have hw2pos : (0 : ℚ) < 1 - (p2 : ℚ) / (tp : ℚ) := by
    have hlt : (p2 : ℚ) / (tp : ℚ) < 1 := (div_lt_one hT0).mpr (by exact_mod_cast h2)
    linarith
  have hwlt : 1 - (p2 : ℚ) / (tp : ℚ) < 1 - (p1 : ℚ) / (tp : ℚ) := by
    have hp12 : (p1 : ℚ) < (p2 : ℚ) := by exact_mod_cast h12
    have hlt : (p1 : ℚ) / (tp : ℚ) < (p2 : ℚ) / (tp : ℚ) := by
      rw [div_eq_mul_inv, div_eq_mul_inv]
      exact mul_lt_mul_of_pos_right hp12 (inv_pos.mpr hT0)
    linarith
  have hspos : (0 : ℚ) < |(s : ℚ)| := by
    rw [abs_pos]
    exact_mod_cast hs
  have hv : (0 : ℚ) < (if v then (1 : ℚ) else 2/5) := by split <;> norm_num
  have hj : (0 : ℚ) < (if j then (3 : ℚ)/5 else 1) := by split <;> norm_num
  simp only [contrib, hmax]
  simp only [abs_mul]
  rw [abs_of_pos hv, abs_of_pos hj, abs_of_pos hw2pos,
    abs_of_pos (lt_trans hw2pos hwlt)]
  exact mul_lt_mul_of_pos_right
    (mul_lt_mul_of_pos_right (mul_lt_mul_of_pos_left hwlt hspos) hv) hj

/-- Concrete instance of the time decay claim: the same betrayal evidence at
passages 1 and 2 of a four-passage narrative. -/
theorem time_decay_strict_monotone_witness :
    1 < 4 ∧ (-10 : ℤ) ≠ 0 ∧ 1 < 2 ∧ 2 < 4 ∧
    |contrib ⟨2, -10, "betrayal", true, false⟩ 4| <
      |contrib ⟨1, -10, "betrayal", true, false⟩ 4| :=
  ⟨by decide, by decide, by decide, by decide,
    time_decay_strict_monotone 4 1 2 (-10) "betrayal" true false
      (by decide) (by decide) (by decide) (by decide)⟩

/-- C4: with no veto-qualifying evidence anywhere, `decide` takes the
weighted path: an empty `weighted` dict yields decision 1 with empty
mappings; otherwise the report carries the full dict, an empty violation
list, and the decision thresholds the summed values at -2.  The dict draws
its bindings `id ↦ final_score * precedence` exactly from the traces with
`causal_valid` true and `|final_score| ≥ 1e-6`. -/
theorem weighted_path_description (traces : List ConstraintTrace)
    (hv : ∀ t ∈ traces, ∀ ev ∈ t.evidences, ¬(ev.score ≤ -9 ∧ ev.voluntary = true)) :
    (weightedFor traces = [] → ConsistencyJudge.decide traces = ⟨1, [], []⟩) ∧
    (weightedFor traces ≠ [] →
      ConsistencyJudge.decide traces =
        ⟨if -2 ≤ sumValues (weightedFor traces) then 1 else 0, weightedFor traces, []⟩) ∧
    (∀ p ∈ weightedFor traces, ∃ t ∈ traces,
      (t.causal_valid = true ∧ ¬ |t.final_score| < 1/1000000) ∧
      p = (t.constraint.id, t.final_score * (t.constraint.precedence : ℚ))) ∧
    (∀ t ∈ traces, t.causal_valid = true → ¬ |t.final_score| < 1/1000000 →
      t.constraint.id ∈ (weightedFor traces).map Prod.fst) := by
  have hnil : ¬ violatedList traces ≠ [] := not_ne_iff.mpr (violatedList_eq_nil hv)
  refine ⟨?_, ?_, ?_, ?_⟩
  · intro hw
    unfold ConsistencyJudge.decide
    rw [if_neg hnil, if_pos hw]
  · intro hw
    unfold ConsistencyJudge.decide
    rw [if_neg hnil, if_neg hw]
  · intro p hp
    exact weightedFor_mem hp
  · intro t ht h1 h2
    exact weightedFor_keys ht ⟨h1, h2⟩

/-- A single causally valid fear trace with final score -3 and no retained
evidence, used to instantiate the weighted path claim. -/
def fearTraceW : ConstraintTrace :=
  ⟨⟨"C3", "FEAR", "Avoids positions of power", 4/5, 1, false⟩, [], -3, true⟩

/-- Concrete instance of the weighted path claim on `fearTraceW`. -/
theorem weighted_path_description_witness :
    (weightedFor [fearTraceW] = [] →
      ConsistencyJudge.decide [fearTraceW] = ⟨1, [], []⟩) ∧
    (weightedFor [fearTraceW] ≠ [] →
      ConsistencyJudge.decide [fearTraceW] =
        ⟨if -2 ≤ sumValues (weightedFor [fearTraceW]) then 1 else 0,
          weightedFor [fearTraceW], []⟩) ∧
    (∀ p ∈ weightedFor [fearTraceW], ∃ t ∈ [fearTraceW],
      (t.causal_valid = true ∧ ¬ |t.final_score| < 1/1000000) ∧
      p = (t.constraint.id, t.final_score * (t.constraint.precedence : ℚ))) ∧
    (∀ t ∈ [fearTraceW], t.causal_valid = true → ¬ |t.final_score| < 1/1000000 →
      t.constraint.id ∈ (weightedFor [fearTraceW]).map Prod.fst) :=
  weighted_path_description [fearTraceW] (by
    intro t ht ev hev
    rw [List.mem_singleton] at ht
    subst ht
    simp [fearTraceW] at hev)

/-- Count of a fixed value over a constant map. -/
lemma count_map_const (l : List EvidenceResult) (a x : String) :
    ((l.map fun _ => a).count x) = if a = x then l.length else 0 := by
  induction l with
  | nil => simp
  | cons e t ih =>
    simp only [List.map_cons, List.count_cons, ih, beq_iff_eq, List.length_cons]
    split <;> simp

/-- C9: the veto scan appends the owning constraint id once per qualifying
evidence, so the violation list counts every hit without deduplication. -/
theorem veto_list_counts_every_hit (traces : List ConstraintTrace) (cid : String) :
    ((ConsistencyJudge.decide traces).violated_constraints).count cid =
      (traces.map fun t =>
        if t.constraint.id = cid then (t.evidences.filter vetoHit).length else 0).sum := by
  rw [decide_violated_eq]
  unfold violatedList
  rw [List.count_flatMap]
  have hfun : ∀ t : ConstraintTrace,
      (List.count cid ∘ fun t : ConstraintTrace =>
        (t.evidences.filter vetoHit).map fun _ => t.constraint.id) t =
      (fun t : ConstraintTrace =>
        if t.constraint.id = cid then (t.evidences.filter vetoHit).length else 0) t := by
    intro t
    exact count_map_const _ _ _
  rw [List.map_congr_left fun t _ => hfun t]

/-- C8 counterexample: with an unrecognized category no rule fires, the
passage "He felt regret." contains the justification marker "regret", yet
the returned evidence has `justified = false` — refuting the claim that in
the default branch `justified` is true if and only if a marker is present. -/
theorem default_branch_justified_cex :
    justifiedOf (lowerData "He felt regret.") = true ∧
    (ConstraintChecker.check ⟨"CX", "MYSTERY", "unknown category", 1, 1, false⟩
      "He felt regret." 0).score = 0 ∧
    (ConstraintChecker.check ⟨"CX", "MYSTERY", "unknown category", 1, 1, false⟩
      "He felt regret." 0).reason = "" ∧
    (ConstraintChecker.check ⟨"CX", "MYSTERY", "unknown category", 1, 1, false⟩
      "He felt regret." 0).justified = false := by
  refine ⟨by decide, ?_, ?_, ?_⟩ <;> decide

/-- C8 (amended): when no category-specific rule fires, `check` returns
score 0 with empty reason and the duress-derived `voluntary` flag, but
`justified` is unconditionally false — the justification markers are not
propagated by the default branch. -/
theorem default_branch_shape (c : Constraint) (p : String) (i : ℕ)
    (h1 : ¬(c.category = "COMMITMENT" ∧ hasNegation (lowerData p) = true))
    (h2 : ¬(c.category = "COMMITMENT" ∧ hasPaddedBetrayal (lowerData p) = true))
    (h3 : ¬(c.category = "CAPABILITY" ∧ containsSub (lowerData p) "suddenly mastered" = true))
    (h4 : ¬(c.category = "IDENTITY" ∧ containsSub (lowerData p) "no longer who i was" = true))
    (h5 : ¬(c.category = "BELIEF" ∧ containsSub (lowerData p) "became the leader" = true))
    (h6 : ¬(c.category = "FEAR" ∧ containsSub (lowerData p) "command" = true)) :
    ConstraintChecker.check c p i = ⟨i, 0, "", voluntaryOf (lowerData p), false⟩ := by
  unfold ConstraintChecker.check
  rw [if_neg h1, if_neg h2, if_neg h3, if_neg h4, if_neg h5, if_neg h6]

/-- Concrete instance of the amended default-branch claim, on a passage that
carries a justification marker. -/
theorem default_branch_shape_witness :
    ConstraintChecker.check ⟨"CX", "MYSTERY", "unknown category", 1, 1, false⟩
        "He felt regret." 3 =
      ⟨3, 0, "", voluntaryOf (lowerData "He felt regret."), false⟩ :=
  default_branch_shape _ _ 3 (by decide) (by decide) (by decide) (by decide)
    (by decide) (by decide)

/-- C10: on every pipeline run, every value of the returned
`per_constraint_scores` mapping is nonpositive, and so is their sum (the
quantity the judge compares against -2): the scorer only produces
nonpositive scores, the driver retains only the non-zero ones, and all
multipliers applied afterwards are nonnegative. -/
theorem pipeline_scores_nonpositive (novel backstory : String) :
    (∀ p ∈ (run_pipeline novel backstory).per_constraint_scores, p.2 ≤ 0) ∧
    sumValues ((run_pipeline novel backstory).per_constraint_scores) ≤ 0 := by
  have key : ∀ p ∈ (run_pipeline novel backstory).per_constraint_scores, p.2 ≤ 0 := by
    intro p hp
    have hp' : p ∈ weightedFor (tracesOf novel backstory) := decide_scores_sub hp
    obtain ⟨t, ht, _, rfl⟩ := weightedFor_mem hp'
    unfold tracesOf at ht
    simp only [List.mem_map] at ht
    obtain ⟨c, hc, rfl⟩ := ht
    obtain ⟨hbw, hprec⟩ := extract_bounds hc
    have hfs : (TemporalAggregator.aggregate (scanFrom c 0 (get_passages novel 700))
        (get_passages novel 700).length c).1 ≤ 0 := by
      apply aggregate_fst_nonpos hbw
      intro ev hev
      obtain ⟨hs, _, hpid⟩ := mem_scanFrom hev
      refine ⟨hs, ?_⟩
      have hlt : ev.passage_id < (get_passages novel 700).length := by
        simpa using hpid
      exact le_trans (le_of_lt hlt) (le_max_left _ _)
    have hprecq : (0 : ℚ) ≤ ((c.precedence : ℤ) : ℚ) := by exact_mod_cast hprec
    exact mul_nonpos_of_nonpos_of_nonneg hfs hprecq
  refine ⟨key, ?_⟩
  unfold sumValues
  apply list_sum_nonpos
  intro x hx
  simp only [List.mem_map] at hx
  obtain ⟨p, hp, rfl⟩ := hx
  exact key p hp
